import Mathlib

/-!
# PrintSplitWeb — verification of the split engine and job runtime claims

Shallow embedding of the PrintSplitWeb server (`src/server/src`), principally
`processing/manifold-splitter.ts` (STL codec, grid planner, hole placer, split
engine) and the HTTP routes `api/routes/process.ts` and `api/routes/jobs.ts`.

Modelling conventions:
* JavaScript numbers are modelled as exact rationals (`ℚ`).  IEEE-754 rounding
  is outside the scope of the claims treated here; every concrete example uses
  values on which float and rational arithmetic agree.
* Byte buffers are `List ℕ` (one natural per byte), strings are `List ℕ` of
  character codes (the inputs of interest are ASCII, where UTF-8 bytes and
  UTF-16 code units coincide).
* The CSG kernel (manifold-3d) is opaque in the source; it is modelled by
  oracle records supplying exactly the operations the engine calls
  (`volume`, `subtract` on candidate cylinders, per-cell `intersect` results).
-/

/-! ## JavaScript numeric helpers -/

/-- `Math.round` of JavaScript: `⌊q + 1/2⌋` (round half toward +∞). -/
def jsRound (q : ℚ) : ℤ := ⌊q + 1/2⌋

/-- The JavaScript `%` operator on numbers.  For a nonnegative dividend and a
positive divisor — the only regime the grid planner uses — the truncated
remainder computed by JS equals this floor-based remainder. -/
def jsMod (a b : ℚ) : ℚ := a - b * (⌊a / b⌋ : ℚ)

/-! ## C2 — Grid planner (`calculateBalancedSplit`, manifold-splitter.ts:392-406)

`calculateBalancedSplit(size, maxDim)` computes
`numSections = Math.max(1, Math.ceil(size / maxDim))`; with balanced cutting
enabled it inspects `remainder = size % maxDim` and uses `size / numSections`
as the piece size when `remainder > 0 && remainder < maxDim * 0.5`, and
`maxDim` otherwise. -/

structure AxisSplit where
  numSections : ℤ
  pieceSize : ℚ
deriving DecidableEq

def calculateBalancedSplit (balancedCutting : Bool) (size maxDim : ℚ) : AxisSplit :=
  let numSections : ℤ := max 1 ⌈size / maxDim⌉
  if balancedCutting then
    let remainder := jsMod size maxDim
    if 0 < remainder ∧ remainder < maxDim * (1/2) then
      ⟨numSections, size / (numSections : ℚ)⟩
    else
      ⟨numSections, maxDim⟩
  else
    ⟨numSections, maxDim⟩

/-- C2.  For every axis with extent `E ≥ 0` and max piece dimension `M > 0`,
the planner returns `sections = max(1, ⌈E / M⌉)`; the product
`sections × piece_size` covers `E`; when balanced cutting is on and the
remainder `E mod M` lies strictly between `0` and `M/2`, the piece size is
`E / sections` (so the product equals `E` exactly), and in every other case
the piece size is `M`. -/
theorem grid_planner_spec (balanced : Bool) (E M : ℚ) (hE : 0 ≤ E) (hM : 0 < M) :
    (calculateBalancedSplit balanced E M).numSections = max 1 ⌈E / M⌉ ∧
    E ≤ ((calculateBalancedSplit balanced E M).numSections : ℚ) *
        (calculateBalancedSplit balanced E M).pieceSize ∧
    ((balanced = true ∧ 0 < jsMod E M ∧ jsMod E M < M * (1/2)) →
      (calculateBalancedSplit balanced E M).pieceSize = E / ((max 1 ⌈E / M⌉ : ℤ) : ℚ) ∧
      ((calculateBalancedSplit balanced E M).numSections : ℚ) *
        (calculateBalancedSplit balanced E M).pieceSize = E) ∧
    (¬ (balanced = true ∧ 0 < jsMod E M ∧ jsMod E M < M * (1/2)) →
      (calculateBalancedSplit balanced E M).pieceSize = M) := by
  have hM' : M ≠ 0 := ne_of_gt hM
  have hn1 : (1 : ℤ) ≤ max 1 ⌈E / M⌉ := le_max_left _ _
  have hnQ : (0 : ℚ) < ((max 1 ⌈E / M⌉ : ℤ) : ℚ) := by exact_mod_cast lt_of_lt_of_le one_pos hn1
  have hcover : E ≤ ((max 1 ⌈E / M⌉ : ℤ) : ℚ) * M := by
    have h1 : E / M ≤ ((⌈E / M⌉ : ℤ) : ℚ) := Int.le_ceil _
    have h2 : ((⌈E / M⌉ : ℤ) : ℚ) ≤ ((max 1 ⌈E / M⌉ : ℤ) : ℚ) := by
      exact_mod_cast le_max_right (1 : ℤ) ⌈E / M⌉
    calc E = E / M * M := (div_mul_cancel₀ E hM').symm
      _ ≤ ((max 1 ⌈E / M⌉ : ℤ) : ℚ) * M :=
        mul_le_mul_of_nonneg_right (le_trans h1 h2) (le_of_lt hM)
  have hexact : ((max 1 ⌈E / M⌉ : ℤ) : ℚ) * (E / ((max 1 ⌈E / M⌉ : ℤ) : ℚ)) = E := by
    rw [mul_comm]
    exact div_mul_cancel₀ E (ne_of_gt hnQ)
  simp only [calculateBalancedSplit]
  split_ifs with hb hr
  · exact ⟨rfl, le_of_eq hexact.symm, fun _ => ⟨rfl, hexact⟩,
      fun hcon => absurd ⟨hb, hr⟩ hcon⟩
  · exact ⟨rfl, hcover, fun hcon => absurd hcon.2 hr, fun _ => rfl⟩
  · exact ⟨rfl, hcover, fun hcon => absurd hcon.1 hb, fun _ => rfl⟩

/-- Witness for C2: the spec's own S3 scenario, extent 250 with max dimension
200 and balanced cutting on (remainder 50 < 100 triggers balancing). -/
theorem grid_planner_spec_wit :
    (calculateBalancedSplit true 250 200).numSections = max 1 ⌈(250 : ℚ) / 200⌉ ∧
    (250 : ℚ) ≤ ((calculateBalancedSplit true 250 200).numSections : ℚ) *
        (calculateBalancedSplit true 250 200).pieceSize :=
  ⟨(grid_planner_spec true 250 200 (by norm_num) (by norm_num)).1,
   (grid_planner_spec true 250 200 (by norm_num) (by norm_num)).2.1⟩

/-! ## C8 — `POST /api/process` validation (api/routes/process.ts:14-42)

The route destructures the JSON body and rejects with HTTP 400 when
`!fileId || !fileName || !dimensions`, or when
`!dimensions.x || !dimensions.y || !dimensions.z`; otherwise it enqueues a
job.  Absent members are `none`; JavaScript falsiness on the relevant value
spaces is: a missing or empty string, respectively a missing or zero number.
-/

structure Dimensions where
  x : Option ℚ
  y : Option ℚ
  z : Option ℚ
deriving DecidableEq

structure ProcessRequest where
  fileId : Option String
  fileName : Option String
  dimensions : Option Dimensions
deriving DecidableEq

/-- JS falsiness of an optional string value (`undefined`, `null`, `""`). -/
def jsFalsyStr (v : Option String) : Bool :=
  match v with
  | none => true
  | some s => s = ""

/-- JS falsiness of an optional numeric value (`undefined`, `null`, `0`). -/
def jsFalsyNum (v : Option ℚ) : Bool :=
  match v with
  | none => true
  | some q => q = 0

inductive ProcessRouteResult where
  | badRequest (msg : String)
  | enqueued (jobId : String)
deriving DecidableEq

/-- The validation/enqueue flow of `POST /api/process`: the two guard
`if`-statements of the route, then `addProcessingJob`. -/
def processRoute (r : ProcessRequest) (jobId : String) : ProcessRouteResult :=
  match r.dimensions with
  | none => .badRequest "Missing required fields: fileId, fileName, dimensions"
  | some d =>
    if jsFalsyStr r.fileId || jsFalsyStr r.fileName then
      .badRequest "Missing required fields: fileId, fileName, dimensions"
    else if jsFalsyNum d.x || jsFalsyNum d.y || jsFalsyNum d.z then
      .badRequest "Dimensions must include x, y, and z values"
    else
      .enqueued jobId

/-- C8 (amended).  A job is enqueued exactly when `fileId` and `fileName` are
present and nonempty, `dimensions` is present, and each member `x`, `y`, `z`
is present and nonzero.  The checks are JS falsiness checks, so zero members
are rejected but negative members are accepted. -/
theorem process_validation (r : ProcessRequest) (jobId : String) :
    processRoute r jobId = .enqueued jobId ↔
      (∃ f, r.fileId = some f ∧ f ≠ "") ∧
      (∃ n, r.fileName = some n ∧ n ≠ "") ∧
      (∃ d, r.dimensions = some d ∧
        (∃ qx, d.x = some qx ∧ qx ≠ 0) ∧
        (∃ qy, d.y = some qy ∧ qy ≠ 0) ∧
        (∃ qz, d.z = some qz ∧ qz ≠ 0)) := by
  obtain ⟨fid, fname, dims⟩ := r
  cases dims with
  | none => simp [processRoute]
  | some d =>
    obtain ⟨dx, dy, dz⟩ := d
    simp only [processRoute]
    cases fid <;> cases fname <;> cases dx <;> cases dy <;> cases dz <;>
      simp [jsFalsyStr, jsFalsyNum] <;>
      first
        | tauto
        | (split_ifs <;> simp_all <;> tauto)

/-- Counterexample for C8 as stated: a request whose `x` dimension is the
negative number `−5` passes both guards, so the job *is* enqueued, although
the claim requires every dimension member to be positive. -/
def negRequest : ProcessRequest :=
  ⟨some "file-1", some "model.stl", some ⟨some (-5), some 100, some 100⟩⟩

theorem process_validation_cex :
    processRoute negRequest "job-1" = .enqueued "job-1" ∧ ((-5 : ℚ) < 0) := by
  with_unfolding_all decide

/-! ## C9 — queue position endpoint (api/routes/jobs.ts:116-190)

`GET /api/jobs/:id/position` for a waiting job: `position` is
`findIndex + 1` in the waiting list, `totalWaiting` its length, and the ETA
is `Math.round((jobsAhead / concurrency) * avgProcessingTime)` where
`avgProcessingTime` is `Math.round(total / n / 1000)` over the (up to 20)
recently completed jobs having both `finishedOn` and `processedOn`
timestamps (milliseconds), defaulting to 120 seconds with no samples, and
`concurrency = activeCount > 0 ? activeCount : 1`. -/

structure CompletedJob where
  processedOn : Option ℤ
  finishedOn : Option ℤ
deriving DecidableEq

structure QueuePosition where
  position : ℤ
  totalWaiting : ℕ
  estimatedWaitTime : ℤ
deriving DecidableEq

/-- The average-processing-time computation of the route: mean of
`finishedOn − processedOn` in milliseconds over the sampled completed jobs,
rounded to whole seconds; 120 s when no job carries both timestamps. -/
def avgProcessingTime (completed : List CompletedJob) : ℤ :=
  let times := completed.filterMap fun j =>
    match j.finishedOn, j.processedOn with
    | some f, some p => some (f - p)
    | _, _ => none
  if times.length = 0 then 120
  else jsRound ((times.sum : ℚ) / (times.length : ℚ) / 1000)

/-- The position/ETA computation of the route for a job in `waiting` state.
`waiting` is the job-id list returned by `getWaiting(0, -1)` and `completed`
the list returned by `getCompleted(0, 19)` (hence at most 20 entries). -/
def queuePositionOf (jobId : String) (waiting : List String) (activeCount : ℕ)
    (completed : List CompletedJob) : QueuePosition :=
  let idx : ℤ :=
    match waiting.findIdx? (· == jobId) with
    | some i => (i : ℤ)
    | none => -1
  let position := idx + 1
  let jobsAhead := position - 1
  let concurrency : ℕ := if 0 < activeCount then activeCount else 1
  ⟨position, waiting.length,
    jsRound (((jobsAhead : ℚ) / (concurrency : ℚ)) * (avgProcessingTime completed : ℚ))⟩

/-- Modelled from the spec's words for comparison: the claim's ETA formula
uses the *exact* mean of the samples in seconds (no rounding of the average
itself), defaulting to 120 when no sample exists. -/
def claimAvgSeconds (completed : List CompletedJob) : ℚ :=
  let times := completed.filterMap fun j =>
    match j.finishedOn, j.processedOn with
    | some f, some p => some (f - p)
    | _, _ => none
  if times.length = 0 then 120
  else (times.sum : ℚ) / (times.length : ℚ) / 1000

/-- Modelled from the spec's words: `round((position − 1) / max(1, active) × avg)`
with the exact mean. -/
def claimWaitTime (position : ℤ) (activeCount : ℕ) (completed : List CompletedJob) : ℤ :=
  jsRound ((((position - 1 : ℤ) : ℚ) / ((max 1 activeCount : ℕ) : ℚ)) * claimAvgSeconds completed)

/-- C9 (amended).  For a waiting job at zero-based rank `r`, the endpoint
returns `position = r + 1`, `totalWaiting = |waiting|`, and
`estimatedWaitTime = round(r / max(1, active) × avg)` where `avg` is the mean
processing time *rounded to whole seconds* (the code's `Math.round(total/n/1000)`),
defaulting to 120 s when no completed job carries both timestamps. -/
theorem queue_position_spec (jobId : String) (waiting : List String) (activeCount : ℕ)
    (completed : List CompletedJob) (r : ℕ)
    (hr : waiting.findIdx? (· == jobId) = some r) :
    queuePositionOf jobId waiting activeCount completed =
      ⟨(r : ℤ) + 1, waiting.length,
        jsRound (((r : ℚ) / ((max 1 activeCount : ℕ) : ℚ)) * (avgProcessingTime completed : ℚ))⟩ := by
  simp only [queuePositionOf, hr]
  have hc : (if 0 < activeCount then activeCount else 1) = max 1 activeCount := by
    cases activeCount with
    | zero => rfl
    | succ n => simp [Nat.succ_pos, Nat.max_eq_right (Nat.one_le_iff_ne_zero.mpr (Nat.succ_ne_zero n))]
  rw [hc]
  have hj : ((r : ℤ) + 1 - 1 : ℤ) = (r : ℤ) := by ring
  rw [hj]
  norm_num

/-- Witness for C9: three waiting jobs with the queried job last, one active
job, no completed samples (average defaults to 120 s). -/
theorem queue_position_spec_wit :
    queuePositionOf "j" ["a", "b", "j"] 1 [] =
      ⟨((2 : ℕ) : ℤ) + 1, (["a", "b", "j"] : List String).length,
        jsRound ((((2 : ℕ) : ℚ) / ((max 1 1 : ℕ) : ℚ)) * (avgProcessingTime [] : ℚ))⟩ :=
  queue_position_spec "j" ["a", "b", "j"] 1 [] 2 (by with_unfolding_all decide)

/-- Counterexample for C9 as stated: one completed sample of 1.5 s, two jobs
ahead, one active worker.  The code rounds the average to 2 s first and
returns an ETA of 4 s; the claim's formula with the exact mean 1.5 s yields
`round(2 × 1.5) = 3`. -/
theorem queue_eta_cex :
    (queuePositionOf "j" ["a", "b", "j"] 1 [⟨some 0, some 1500⟩]).estimatedWaitTime = 4 ∧
    claimWaitTime 3 1 [⟨some 0, some 1500⟩] = 3 := by
  with_unfolding_all decide

/-! ## C1/C3 — Hole placer (manifold-splitter.ts:232-265 and 431-953)

The three cut passes (X, then Y, then Z) share one candidate-evaluation
routine, repeated verbatim per axis in the source.  Per cut plane and grid
cell the engine measures the material footprint, enumerates a ladder of
candidate positions, and for each candidate: skips it unless `isHoleSafe`
holds, then subtracts a test cylinder from the working solid and accepts the
candidate only if the removed volume is at least 80% of the expected cylinder
volume, additionally requiring — when that primary quotient is below 90% — a
half-depth removal quotient of at least 60%.

The CSG kernel is abstracted as an oracle: `volume` of the working solid and
the result of subtracting the full-depth, respectively half-depth, cylinder
placed at a candidate.  (The cylinder is a function of the candidate and the
fixed hole parameters, so this is the exact information flow of the source.)
The two perpendicular coordinates `pos1`/`pos2` are the pair the source
selects from the cut axis (`y`/`z` for X-cuts, `x`/`z` for Y-cuts, `x`/`y`
for Z-cuts). -/

structure Cand where
  pos1 : ℚ
  pos2 : ℚ
  label : String
deriving DecidableEq

structure ActualBounds where
  min1 : ℚ
  max1 : ℚ
  min2 : ℚ
  max2 : ℚ
deriving DecidableEq

/-- `isHoleSafe` (manifold-splitter.ts:232-265): all four distances from the
candidate to the measured section rectangle's edges must be at least
`holeRadius + 0.1` (non-strict `>=` in the source). -/
def isHoleSafe (c : Cand) (holeRadius : ℚ) (b : ActualBounds) : Bool :=
  let minSafe := holeRadius + 1/10
  decide (minSafe ≤ c.pos1 - b.min1) && decide (minSafe ≤ b.max1 - c.pos1) &&
    decide (minSafe ≤ c.pos2 - b.min2) && decide (minSafe ≤ b.max2 - c.pos2)

/-- An accepted candidate, with the measured primary volume quotient
(`removalRatio` in the source, `rVol` here) and depth quotient
(`depthRatio` in the source, `rDepth` here; defaulted to 1 when the primary
quotient is at least 90% and the half-depth check is skipped). -/
structure HoleAccept where
  cand : Cand
  rVol : ℚ
  rDepth : ℚ
deriving DecidableEq

/-- The CSG-kernel operations the candidate loop invokes, abstracted over the
kernel's opaque solid type `σ`. -/
structure HoleOracle (σ : Type) where
  volume : σ → ℚ
  subtractFull : σ → Cand → σ
  subtractHalf : σ → Cand → σ

/-- One candidate evaluation (the body of the `for (const pos of
strategicPositions)` loop, manifold-splitter.ts:540-611 and its Y/Z copies):
boundary gate, full-depth volume test against `expectedVolume`, borderline
half-depth test, and the resulting working solid. -/
def evalCandidate {σ : Type} (K : HoleOracle σ) (expectedVolume holeRadius : ℚ)
    (b : ActualBounds) (working : σ) (c : Cand) : σ × Option HoleAccept :=
  if ! isHoleSafe c holeRadius b then (working, none)
  else
    let beforeVol := K.volume working
    let testManifold := K.subtractFull working c
    let volumeRemoved := beforeVol - K.volume testManifold
    let rVol := volumeRemoved / expectedVolume
    if 8/10 ≤ rVol then
      if rVol < 9/10 then
        let halfRemoved := beforeVol - K.volume (K.subtractHalf working c)
        let rDepth := halfRemoved / volumeRemoved
        if rDepth < 6/10 then (working, none)
        else (testManifold, some ⟨c, rVol, rDepth⟩)
      else (testManifold, some ⟨c, rVol, 1⟩)
    else (working, none)

/-- A cell's candidate ladder evaluated in order, threading the working solid
(acceptance is accumulative: later candidates see earlier holes). -/
def runHolePass {σ : Type} (K : HoleOracle σ) (expectedVolume holeRadius : ℚ)
    (b : ActualBounds) : σ → List Cand → σ × List HoleAccept
  | w, [] => (w, [])
  | w, c :: cs =>
    let p := evalCandidate K expectedVolume holeRadius b w c
    let q := runHolePass K expectedVolume holeRadius b p.1 cs
    match p.2 with
    | some a => (q.1, a :: q.2)
    | none => q

/-- The sparse candidate ladder (four inset corners + center,
manifold-splitter.ts:500-511), emitted only when the measured section
rectangle is at least `2 × edgeInset` wide and high; `edgeInset` is
`holeRadius * 2.5`. -/
def strategicPositionsSparse (b : ActualBounds) (holeRadius : ℚ) : List Cand :=
  let e := holeRadius * (5/2)
  let w := b.max1 - b.min1
  let h := b.max2 - b.min2
  if e * 2 ≤ w ∧ e * 2 ≤ h then
    [⟨b.min1 + e, b.min2 + e, "corner-BL"⟩,
     ⟨b.min1 + e, b.max2 - e, "corner-TL"⟩,
     ⟨b.max1 - e, b.min2 + e, "corner-BR"⟩,
     ⟨b.max1 - e, b.max2 - e, "corner-TR"⟩,
     ⟨(b.min1 + b.max1) / 2, (b.min2 + b.max2) / 2, "center"⟩]
  else []

theorem evalCandidate_accept {σ : Type} (K : HoleOracle σ) (eV rad : ℚ)
    (b : ActualBounds) (w : σ) (c : Cand) (a : HoleAccept)
    (h : (evalCandidate K eV rad b w c).2 = some a) :
    (8/10 ≤ a.rVol ∧ (a.rVol < 9/10 → 6/10 ≤ a.rDepth)) ∧
      isHoleSafe c rad b = true ∧ a.cand = c := by
  simp only [evalCandidate] at h
  split_ifs at h with hsafe h1 h2 h3
  all_goals simp at h
  all_goals subst h
  all_goals refine ⟨⟨h1, ?_⟩, by simpa using hsafe, rfl⟩
  all_goals
    first
      | exact fun _ => le_of_not_lt h3
      | exact fun hlt => absurd hlt h2

theorem runHolePass_mem {σ : Type} (K : HoleOracle σ) (eV rad : ℚ)
    (b : ActualBounds) (cs : List Cand) (w : σ) (a : HoleAccept)
    (ha : a ∈ (runHolePass K eV rad b w cs).2) :
    ∃ w' c, c ∈ cs ∧ (evalCandidate K eV rad b w' c).2 = some a := by
  induction cs generalizing w with
  | nil => simp [runHolePass] at ha
  | cons c cs ih =>
    rw [runHolePass] at ha
    rcases hp : (evalCandidate K eV rad b w c).2 with _ | a'
    · rw [hp] at ha
      obtain ⟨w', c', hc', he⟩ := ih _ ha
      exact ⟨w', c', List.mem_cons_of_mem _ hc', he⟩
    · rw [hp] at ha
      rcases List.mem_cons.mp ha with rfl | htail
      · exact ⟨w, c, List.mem_cons_self _ _, hp⟩
      · obtain ⟨w', c', hc', he⟩ := ih _ htail
        exact ⟨w', c', List.mem_cons_of_mem _ hc', he⟩

/-- C1.  Every candidate accepted by the hole placer (any axis pass, any
working-solid state, any candidate ladder) has a measured primary volume
quotient of at least 0.80, and whenever that quotient lies in [0.80, 0.90)
its measured half-depth quotient is at least 0.60. -/
theorem hole_quality_gate {σ : Type} (K : HoleOracle σ) (eV rad : ℚ)
    (b : ActualBounds) (w : σ) (cs : List Cand) (a : HoleAccept)
    (ha : a ∈ (runHolePass K eV rad b w cs).2) :
    8/10 ≤ a.rVol ∧ (a.rVol < 9/10 → 6/10 ≤ a.rDepth) := by
  obtain ⟨w', c, _, he⟩ := runHolePass_mem K eV rad b cs w a ha
  exact (evalCandidate_accept K eV rad b w' c a he).1

/-- Witness oracle for C1: a solid of volume 10 from which the full cylinder
removes 17/20 of the unit expected volume and the half cylinder 51/100,
giving quotients 0.85 and exactly 0.60. -/
def c1K : HoleOracle ℚ :=
  ⟨id, fun w _ => w - 17/20, fun w _ => w - 51/100⟩

def c1B : ActualBounds := ⟨0, 10, 0, 10⟩

def c1c : Cand := ⟨5, 5, "center"⟩

theorem hole_quality_gate_wit :
    (8/10 : ℚ) ≤ 17/20 ∧ ((17/20 : ℚ) < 9/10 → (6/10 : ℚ) ≤ 3/5) :=
  hole_quality_gate c1K 1 (1/16) c1B 10 [c1c] ⟨c1c, 17/20, 3/5⟩
    (by with_unfolding_all decide)

/-- C3 (amended).  Every accepted candidate satisfies the non-strict boundary
gate: its distance to each of the four edges of the measured section
rectangle is *at least* `radius + 0.1` (the source's `>=`), so the closed
disc of radius `radius + 0.1` fits inside the rectangle, possibly touching
its boundary. -/
theorem hole_margin_closed {σ : Type} (K : HoleOracle σ) (eV rad : ℚ)
    (b : ActualBounds) (w : σ) (cs : List Cand) (a : HoleAccept)
    (ha : a ∈ (runHolePass K eV rad b w cs).2) :
    rad + 1/10 ≤ a.cand.pos1 - b.min1 ∧ rad + 1/10 ≤ b.max1 - a.cand.pos1 ∧
      rad + 1/10 ≤ a.cand.pos2 - b.min2 ∧ rad + 1/10 ≤ b.max2 - a.cand.pos2 := by
  obtain ⟨w', c, _, he⟩ := runHolePass_mem K eV rad b cs w a ha
  obtain ⟨-, hsafe, hc⟩ := evalCandidate_accept K eV rad b w' c a he
  rw [hc]
  simpa [isHoleSafe, Bool.and_eq_true, decide_eq_true_iff, and_assoc] using hsafe

theorem hole_margin_closed_wit :
    (1/16 : ℚ) + 1/10 ≤ (5 : ℚ) - 0 ∧ (1/16 : ℚ) + 1/10 ≤ (10 : ℚ) - 5 ∧
      (1/16 : ℚ) + 1/10 ≤ (5 : ℚ) - 0 ∧ (1/16 : ℚ) + 1/10 ≤ (10 : ℚ) - 5 :=
  hole_margin_closed c1K 1 (1/16) c1B 10 [c1c] ⟨c1c, 17/20, 3/5⟩
    (by with_unfolding_all decide)

/-- Counterexample oracle for C3 as stated: every full-depth subtraction
removes exactly the unit expected volume (quotient 1, no depth check). -/
def c3K : HoleOracle ℚ :=
  ⟨id, fun w _ => w - 1, fun w _ => w - 1/2⟩

/-- A measured footprint rectangle of side `13/40` with hole radius `1/16`:
`edgeInset = 5/32`, so the ladder is emitted, the corners fail the boundary
gate, and the center sits at distance exactly `radius + 0.1 = 13/80` from
every edge. -/
def c3B : ActualBounds := ⟨0, 13/40, 0, 13/40⟩

/-- Counterexample for C3 as stated: with radius `1/16` and the measured
rectangle `c3B`, the source's own sparse ladder yields exactly one accepted
candidate — the center — whose distance to the rectangle's edges is exactly
`radius + 0.1`, not strictly greater.  A disc of radius `radius + 0.1` around
it touches the rectangle's boundary, so it does not lie *strictly* inside. -/
theorem hole_margin_strict_cex :
    (runHolePass c3K 1 (1/16) c3B 10 (strategicPositionsSparse c3B (1/16))).2 =
      [⟨⟨13/80, 13/80, "center"⟩, 1, 1⟩] ∧
    ¬ ((1 : ℚ)/16 + 1/10 < (13/80 : ℚ) - c3B.min1) := by
  with_unfolding_all decide

/-! ## C4 — Split engine grid loop (manifold-splitter.ts:955-1049)

After hole carving, the engine iterates `x` from `0` to `sections.x − 1`,
inside it `y`, inside it `z`.  For each cell it intersects the working solid
with the cell's cutting box; when the intersection's status is `'NoError'`
and its volume exceeds `10⁻³` it exports the mesh and — when the exported
mesh has at least one vertex coordinate — writes `part_{x+1}_{y+1}_{z+1}.stl`
and appends the part record.  The per-cell intersection results are
abstracted as an oracle indexed by the cell (the working solid is fixed
during this loop). -/

inductive ManifoldStatus where
  | noError
  | errored
deriving DecidableEq

structure PartArtifact where
  name : String
  sectionIdx : ℕ × ℕ × ℕ
deriving DecidableEq

/-- Results of `working.intersect(cellBox)` per cell: its `status()`, its
`volume()`, and `getMesh().vertProperties.length` of the exported mesh. -/
structure CellOracle where
  status : ℕ → ℕ → ℕ → ManifoldStatus
  volume : ℕ → ℕ → ℕ → ℚ
  vertCount : ℕ → ℕ → ℕ → ℕ

def partName (x y z : ℕ) : String :=
  "part_" ++ toString (x + 1) ++ "_" ++ toString (y + 1) ++ "_" ++ toString (z + 1) ++ ".stl"

def mkPart (x y z : ℕ) : PartArtifact :=
  ⟨partName x y z, (x + 1, y + 1, z + 1)⟩

/-- The emission decision for one cell: status `NoError`, volume `> 0.001`,
and a nonempty exported vertex array. -/
def cellEmit (K : CellOracle) (x y z : ℕ) : Option PartArtifact :=
  if K.status x y z = ManifoldStatus.noError ∧ 1/1000 < K.volume x y z ∧ 0 < K.vertCount x y z
  then some (mkPart x y z) else none

/-- The triple-nested cell loop, emitting parts in iteration order. -/
def splitParts (sx sy sz : ℕ) (K : CellOracle) : List PartArtifact :=
  (List.range sx).flatMap fun x =>
    (List.range sy).flatMap fun y =>
      (List.range sz).filterMap fun z => cellEmit K x y z

/-- Strict lexicographic order on `(x, y, z)` section indices. -/
def sectionLt (a b : ℕ × ℕ × ℕ) : Prop :=
  a.1 < b.1 ∨ (a.1 = b.1 ∧ (a.2.1 < b.2.1 ∨ (a.2.1 = b.2.1 ∧ a.2.2 < b.2.2)))

theorem cellEmit_eq {K : CellOracle} {x y z : ℕ} {p : PartArtifact}
    (h : cellEmit K x y z = some p) : p = mkPart x y z := by
  simp only [cellEmit, Option.ite_none_right_eq_some] at h
  exact (Option.some_injective _ h.2).symm

/-- C4.  Under the kernel-soundness assumption that a part of volume
`> 10⁻³` exports a nonempty mesh (true of any kernel whose volume is
computed from its mesh), a part is emitted for cell `(x,y,z)` exactly when
`x < sections.x`, `y < sections.y`, `z < sections.z`, the intersection's
status is `NoError`, and its volume exceeds `10⁻³`; every emitted part is
named `part_{x}_{y}_{z}.stl` from its own 1-based section indices; and the
emitted list is strictly increasing in lexicographic `(x,y,z)` order. -/
theorem split_cells_spec (sx sy sz : ℕ) (K : CellOracle)
    (hker : ∀ x y z, 1/1000 < K.volume x y z → 0 < K.vertCount x y z) :
    (∀ p, p ∈ splitParts sx sy sz K ↔
      ∃ x y z, x < sx ∧ y < sy ∧ z < sz ∧
        K.status x y z = ManifoldStatus.noError ∧ 1/1000 < K.volume x y z ∧
        p = mkPart x y z) ∧
    (∀ p ∈ splitParts sx sy sz K,
      p.name = "part_" ++ toString p.sectionIdx.1 ++ "_" ++ toString p.sectionIdx.2.1 ++
        "_" ++ toString p.sectionIdx.2.2 ++ ".stl") ∧
    List.Pairwise (fun p q => sectionLt p.sectionIdx q.sectionIdx)
      (splitParts sx sy sz K) := by
  have hmem : ∀ p, p ∈ splitParts sx sy sz K ↔
      ∃ x y z, x < sx ∧ y < sy ∧ z < sz ∧
        K.status x y z = ManifoldStatus.noError ∧ 1/1000 < K.volume x y z ∧
        p = mkPart x y z := by
    intro p
    constructor
    · intro hp
      simp only [splitParts, List.mem_flatMap, List.mem_filterMap, List.mem_range] at hp
      obtain ⟨x, hx, y, hy, z, hz, hcell⟩ := hp
      have hp' := cellEmit_eq hcell
      simp only [cellEmit, Option.ite_none_right_eq_some] at hcell
      exact ⟨x, y, z, hx, hy, hz, hcell.1.1, hcell.1.2.1, hp'⟩
    · rintro ⟨x, y, z, hx, hy, hz, hst, hvol, rfl⟩
      simp only [splitParts, List.mem_flatMap, List.mem_filterMap, List.mem_range]
      refine ⟨x, hx, y, hy, z, hz, ?_⟩
      simp only [cellEmit, Option.ite_none_right_eq_some]
      exact ⟨⟨hst, hvol, hker x y z hvol⟩, by simp⟩
  refine ⟨hmem, ?_, ?_⟩
  · intro p hp
    obtain ⟨x, y, z, -, -, -, -, -, rfl⟩ := (hmem p).mp hp
    rfl
  · simp only [splitParts]
    rw [List.pairwise_flatMap]
    constructor
    · intro x _
      rw [List.pairwise_flatMap]
      constructor
      · intro y _
        rw [List.pairwise_filterMap]
        refine (List.pairwise_lt_range _).imp ?_
        intro z z' hzz b hb b' hb'
        rw [Option.mem_def] at hb hb'
        obtain rfl := cellEmit_eq hb
        obtain rfl := cellEmit_eq hb'
        exact Or.inr ⟨rfl, Or.inr ⟨rfl, Nat.add_lt_add_right hzz 1⟩⟩
      · refine (List.pairwise_lt_range _).imp ?_
        intro y y' hyy b hb b' hb'
        rw [List.mem_filterMap] at hb hb'
        obtain ⟨z, -, hcz⟩ := hb
        obtain ⟨z', -, hcz'⟩ := hb'
        obtain rfl := cellEmit_eq hcz
        obtain rfl := cellEmit_eq hcz'
        exact Or.inr ⟨rfl, Or.inl (Nat.add_lt_add_right hyy 1)⟩
    · refine (List.pairwise_lt_range _).imp ?_
      intro x x' hxx b hb b' hb'
      rw [List.mem_flatMap] at hb hb'
      obtain ⟨y, -, hb⟩ := hb
      obtain ⟨y', -, hb'⟩ := hb'
      rw [List.mem_filterMap] at hb hb'
      obtain ⟨z, -, hcz⟩ := hb
      obtain ⟨z', -, hcz'⟩ := hb'
      obtain rfl := cellEmit_eq hcz
      obtain rfl := cellEmit_eq hcz'
      exact Or.inl (Nat.add_lt_add_right hxx 1)

/-- Witness oracle for C4: a 1×1×1 grid whose single intersection is a valid
solid of volume 1 exporting 12 vertex coordinates. -/
def c4K : CellOracle :=
  ⟨fun _ _ _ => ManifoldStatus.noError, fun _ _ _ => 1, fun _ _ _ => 12⟩

theorem split_cells_spec_wit :
    mkPart 0 0 0 ∈ splitParts 1 1 1 c4K ∧ (mkPart 0 0 0).name = "part_1_1_1.stl" :=
  ⟨((split_cells_spec 1 1 1 c4K (fun _ _ _ _ => by norm_num [c4K])).1 (mkPart 0 0 0)).mpr
      ⟨0, 0, 0, Nat.one_pos, Nat.one_pos, Nat.one_pos, rfl, by norm_num [c4K], rfl⟩,
   by with_unfolding_all decide⟩

/-! ## STL codec (manifold-splitter.ts:39-226)

Byte buffers are `List ℕ` (one natural per byte).  Text is a `List ℕ` of
character codes; the inputs of interest are ASCII, where `buffer.toString('utf8')`
is the identity on codes.  IEEE-754 binary32 payloads are decoded exactly
into `ℚ` (non-finite payloads, which no claim touches, are mapped to 0). -/

def codes (s : String) : List ℕ := s.data.map Char.toNat

def readByte (bs : List ℕ) (i : ℕ) : ℕ := bs.getD i 0

/-- `DataView.getUint32(i, true)`: little-endian 32-bit read. -/
def readUInt32LE (bs : List ℕ) (i : ℕ) : ℕ :=
  readByte bs i + 256 * readByte bs (i + 1) + 65536 * readByte bs (i + 2) +
    16777216 * readByte bs (i + 3)

/-- Exact value of an IEEE-754 binary32 bit pattern (finite cases; the
exponent-255 payloads NaN/±Inf carry no rational value and map to 0 — no
claim exercises them). -/
def decodeFloat32 (w : ℕ) : ℚ :=
  let sign : ℚ := if w / 2 ^ 31 % 2 = 1 then -1 else 1
  let expo : ℕ := w / 2 ^ 23 % 256
  let frac : ℕ := w % 2 ^ 23
  if expo = 0 then sign * (frac : ℚ) / 2 ^ 149
  else if expo = 255 then 0
  else if 150 ≤ expo then sign * ((2 ^ 23 + frac : ℕ) : ℚ) * 2 ^ (expo - 150)
  else sign * ((2 ^ 23 + frac : ℕ) : ℚ) / 2 ^ (150 - expo)

def readFloat32LE (bs : List ℕ) (i : ℕ) : ℚ := decodeFloat32 (readUInt32LE bs i)

/-- The 6-decimal quantization behind the dedup key
`x.toFixed(6) + "," + y.toFixed(6) + "," + z.toFixed(6)`.  The tie-breaking
and signed-zero corner cases of `toFixed` are modelled as round half up;
no claim depends on the tie rule. -/
def key6 (x : ℚ) : ℤ := jsRound (x * 1000000)

def keyV (v : ℚ × ℚ × ℚ) : ℤ × ℤ × ℤ := (key6 v.1, key6 v.2.1, key6 v.2.2)

/-- The vertex table under construction: `vertices` in insertion order and
the `vertexMap` as the parallel list of keys (the index of a key is the
stored map value; keys are pairwise distinct by construction). -/
structure DState where
  verts : List (ℚ × ℚ × ℚ)
  keys : List (ℤ × ℤ × ℤ)
deriving DecidableEq

/-- First index of a key in the key list (`vertexMap.get`). -/
def lookupIdx (k : ℤ × ℤ × ℤ) : List (ℤ × ℤ × ℤ) → Option ℕ
  | [] => none
  | k2 :: ks => if k2 = k then some 0 else (lookupIdx k ks).map (· + 1)

/-- Vertex deduplication step: reuse the mapped index when the key is known,
otherwise append the vertex and its key (`vertexIndex++`). -/
def pushVert (st : DState) (v : ℚ × ℚ × ℚ) : DState × ℕ :=
  match lookupIdx (keyV v) st.keys with
  | some i => (st, i)
  | none => (⟨st.verts ++ [v], st.keys ++ [keyV v]⟩, st.verts.length)

/-- Deduplicate a stream of vertex instances, emitting one index per
instance (the triangle-index stream). -/
def decodeStream : DState → List (ℚ × ℚ × ℚ) → DState × List ℕ
  | st, [] => (st, [])
  | st, v :: vs =>
    let p := pushVert st v
    let q := decodeStream p.1 vs
    (q.1, p.2 :: q.2)

def vecMin (a b : ℚ × ℚ × ℚ) : ℚ × ℚ × ℚ :=
  (min a.1 b.1, min a.2.1 b.2.1, min a.2.2 b.2.2)

def vecMax (a b : ℚ × ℚ × ℚ) : ℚ × ℚ × ℚ :=
  (max a.1 b.1, max a.2.1 b.2.1, max a.2.2 b.2.2)

/-- Componentwise min/max over the accepted raw vertex instances (the
running `minX … maxZ` updates; `none` models the untouched ±Infinity of an
empty stream). -/
def computeBounds : List (ℚ × ℚ × ℚ) → Option ((ℚ × ℚ × ℚ) × (ℚ × ℚ × ℚ))
  | [] => none
  | v :: vs =>
    match computeBounds vs with
    | none => some (v, v)
    | some (lo, hi) => some (vecMin v lo, vecMax v hi)

/-- `STLMesh` of the source: flat vertex table (grouped in coordinate
triples), flat triangle-index list, bounds. -/
structure STLMesh where
  vertices : List (ℚ × ℚ × ℚ)
  triangles : List ℕ
  bounds : Option ((ℚ × ℚ × ℚ) × (ℚ × ℚ × ℚ))
deriving DecidableEq

/-- Decode a triangle-soup vertex stream into an indexed mesh: the common
core of `parseBinarySTL` (which reads three vertices per 50-byte record)
and of re-decoding an encoded mesh. -/
def parseSoup (stream : List (ℚ × ℚ × ℚ)) : STLMesh :=
  let r := decodeStream ⟨[], []⟩ stream
  ⟨r.1.verts, r.2, computeBounds stream⟩

/-- The vertex stream of a binary STL: for record `i`, skip the 12-byte
normal and read three vertices of three little-endian floats each
(manifold-splitter.ts:68-96). -/
def binaryStream (bs : List ℕ) : List (ℚ × ℚ × ℚ) :=
  (List.range (readUInt32LE bs 80)).flatMap fun i =>
    (List.range 3).map fun v =>
      let off := 84 + i * 50 + 12 + v * 12
      (readFloat32LE bs off, readFloat32LE bs (off + 4), readFloat32LE bs (off + 8))

def parseBinarySTL (bs : List ℕ) : STLMesh := parseSoup (binaryStream bs)

/-! ### ASCII parser (manifold-splitter.ts:110-165) -/

/-- JS whitespace for `/\s+/` restricted to the ASCII range. -/
def isWsCode (c : ℕ) : Bool :=
  c = 32 || c = 9 || c = 10 || c = 11 || c = 12 || c = 13

def toLowerCode (c : ℕ) : ℕ := if 65 ≤ c ∧ c ≤ 90 then c + 32 else c

def trimCodes (cs : List ℕ) : List ℕ :=
  ((cs.dropWhile isWsCode).reverse.dropWhile isWsCode).reverse

/-- `content.split('\n')` on code lists. -/
def splitNl : List ℕ → List (List ℕ)
  | [] => [[]]
  | c :: rest =>
    match splitNl rest with
    | [] => []
    | l :: ls => if c = 10 then [] :: l :: ls else (c :: l) :: ls

/-- Split on whitespace runs and drop empty pieces: on an already-trimmed
string this is exactly `trimmed.split(/\s+/)`. -/
def splitWsAll : List ℕ → List (List ℕ)
  | [] => [[]]
  | c :: rest =>
    match splitWsAll rest with
    | [] => []
    | l :: ls => if isWsCode c then [] :: l :: ls else (c :: l) :: ls

def tokensOf (cs : List ℕ) : List (List ℕ) :=
  (splitWsAll cs).filter (fun t => !t.isEmpty)

def startsWithCodes : List ℕ → List ℕ → Bool
  | _, [] => true
  | [], _ :: _ => false
  | c :: cs, p :: ps => (c == p) && startsWithCodes cs ps

def isDigitCode (c : ℕ) : Bool := 48 ≤ c && c ≤ 57

def digitsToNat (ds : List ℕ) : ℕ := ds.foldl (fun a d => a * 10 + (d - 48)) 0

/-- Plain decimal forms of JavaScript `Number(...)`: optional sign, integer
part, optional fractional part.  Exponent notation, hex, `Infinity` and the
NaN outcomes are outside this model (no treated claim depends on the numeric
value of a token, only on the token count); unparsable tokens map to 0 via
`jsNumber`. -/
def parseDecimal? (cs : List ℕ) : Option ℚ :=
  let sgn : ℚ × List ℕ :=
    match cs with
    | 45 :: r => (-1, r)
    | 43 :: r => (1, r)
    | r => (1, r)
  let ip := sgn.2.takeWhile isDigitCode
  let rest := sgn.2.dropWhile isDigitCode
  match rest with
  | [] => if ip.isEmpty then none else some (sgn.1 * (digitsToNat ip : ℚ))
  | 46 :: fp =>
    if fp.all isDigitCode ∧ (ip ≠ [] ∨ fp ≠ []) then
      some (sgn.1 * ((digitsToNat ip : ℚ) + (digitsToNat fp : ℚ) / 10 ^ fp.length))
    else none
  | _ => none

def jsNumber (cs : List ℕ) : ℚ := (parseDecimal? cs).getD 0

/-- "vertex" -/
def vertexPat : List ℕ := [118, 101, 114, 116, 101, 120]

/-- "endfacet" -/
def endfacetPat : List ℕ := [101, 110, 100, 102, 97, 99, 101, 116]

/-- The fold state of the ASCII line loop: dedup state, emitted triangle
indices, the `triangleVertices` accumulator of the current facet, and the
raw accepted vertex instances (which drive the bounds updates). -/
structure AsciiState where
  st : DState
  triangles : List ℕ
  triVerts : List ℕ
  seenVerts : List (ℚ × ℚ × ℚ)
deriving DecidableEq

/-- One line of the ASCII loop: trim + lowercase; a line starting with
"vertex" contributes a vertex exactly when it carries three tokens after the
keyword (otherwise the line is skipped); `endfacet` flushes the current
facet as a triangle exactly when it has three accepted vertices. -/
def asciiStep (s : AsciiState) (line : List ℕ) : AsciiState :=
  let t := (trimCodes line).map toLowerCode
  if startsWithCodes t vertexPat then
    match ((tokensOf t).drop 1).map jsNumber with
    | [x, y, z] =>
      let p := pushVert s.st (x, y, z)
      ⟨p.1, s.triangles, s.triVerts ++ [p.2], s.seenVerts ++ [(x, y, z)]⟩
    | _ => s
  else if t = endfacetPat then
    if s.triVerts.length = 3 then ⟨s.st, s.triangles ++ s.triVerts, [], s.seenVerts⟩
    else ⟨s.st, s.triangles, [], s.seenVerts⟩
  else s

def parseASCIILines (lines : List (List ℕ)) : STLMesh :=
  let s := lines.foldl asciiStep ⟨⟨[], []⟩, [], [], []⟩
  ⟨s.st.verts, s.triangles, computeBounds s.seenVerts⟩

def parseASCIISTL (content : List ℕ) : STLMesh := parseASCIILines (splitNl content)

inductive STLError where
  | rangeError
  | invalidFormat
deriving DecidableEq

instance {e a : Type} [DecidableEq e] [DecidableEq a] : DecidableEq (Except e a) :=
  fun x y =>
    match x, y with
    | .error u, .error v =>
      if h : u = v then .isTrue (by rw [h]) else .isFalse (fun hc => h (Except.error.inj hc))
    | .error _, .ok _ => .isFalse (fun hc => Except.noConfusion hc)
    | .ok _, .error _ => .isFalse (fun hc => Except.noConfusion hc)
    | .ok u, .ok v =>
      if h : u = v then .isTrue (by rw [h]) else .isFalse (fun hc => h (Except.ok.inj hc))

/-- `parseSTLFile` (manifold-splitter.ts:39-54): read the little-endian
triangle count at byte offset 80 — a read that throws a `RangeError` when
the buffer is shorter than 84 bytes — and parse as binary exactly when
`80 + 4 + 50·count` equals the file size, as ASCII otherwise. -/
def parseSTLFile (bs : List ℕ) : Except STLError STLMesh :=
  if bs.length < 84 then .error .rangeError
  else
    let triangleCount := readUInt32LE bs 80
    if bs.length = 80 + 4 + triangleCount * 50 then .ok (parseBinarySTL bs)
    else .ok (parseASCIISTL bs)

/-! ### C10 — files shorter than 84 bytes -/

/-- C10.  Every input shorter than 84 bytes makes `parseSTLFile` throw (the
unguarded `getUint32(80)` is out of the DataView's bounds); no such file is
ever decoded, by either branch. -/
theorem short_file_rejected (bs : List ℕ) (h : bs.length < 84) :
    parseSTLFile bs = .error .rangeError := by
  simp [parseSTLFile, h]

/-- Witness for C10: a syntactically valid 58-byte ASCII STL is rejected. -/
theorem short_file_rejected_wit :
    (codes "solid tiny\nfacet\nouter loop\nvertex 0 0 0\nendfacet\nendsolid").length < 84 ∧
    parseSTLFile (codes "solid tiny\nfacet\nouter loop\nvertex 0 0 0\nendfacet\nendsolid") =
      .error .rangeError :=
  ⟨by with_unfolding_all decide,
   short_file_rejected _ (by with_unfolding_all decide)⟩

/-! ### C5 — binary/ASCII dispatch -/

/-- C5 (amended).  For every input of at least 84 bytes the decoder treats
the file as binary exactly when `80 + 4 + 50·count` (for the little-endian
count at offset 80) equals the file size, and parses it as ASCII otherwise;
an input shorter than 84 bytes is parsed by neither branch (see C10). -/
theorem stl_dispatch_split (bs : List ℕ) (h : 84 ≤ bs.length) :
    (bs.length = 80 + 4 + readUInt32LE bs 80 * 50 →
      parseSTLFile bs = .ok (parseBinarySTL bs)) ∧
    (bs.length ≠ 80 + 4 + readUInt32LE bs 80 * 50 →
      parseSTLFile bs = .ok (parseASCIISTL bs)) := by
  constructor <;> intro hc <;> simp [parseSTLFile, Nat.not_lt.mpr h, hc]

/-- Witness for C5 (amended): the 84-byte binary file with triangle count 0
satisfies the size equation and is parsed by the binary branch. -/
theorem stl_dispatch_split_wit :
    84 ≤ (List.replicate 84 0).length ∧
    parseSTLFile (List.replicate 84 0) = .ok (parseBinarySTL (List.replicate 84 0)) :=
  ⟨by with_unfolding_all decide,
   (stl_dispatch_split (List.replicate 84 0) (by with_unfolding_all decide)).1
     (by with_unfolding_all decide)⟩

/-- Counterexample for C5 as stated: a 64-byte file that is a perfectly
well-formed ASCII STL (its ASCII parse yields one triangle).  The claim
("for every input file … otherwise parses it as ASCII") requires the decoder
to parse it as ASCII; instead the decoder throws the out-of-bounds error. -/
theorem stl_dispatch_cex :
    parseSTLFile (codes "solid a\nvertex 0 0 0\nvertex 1 0 0\nvertex 0 1 0\nendfacet\nendsolid") =
      .error .rangeError ∧
    (parseASCIISTL (codes "solid a\nvertex 0 0 0\nvertex 1 0 0\nvertex 0 1 0\nendfacet\nendsolid")).triangles =
      [0, 1, 2] := by
  with_unfolding_all decide

/-! ### C7 — malformed vertex lines -/

/-- A line whose trimmed lowercase form starts with "vertex" but carries a
number of tokens other than three after the keyword. -/
def badVertexLine (line : List ℕ) : Bool :=
  let t := (trimCodes line).map toLowerCode
  startsWithCodes t vertexPat && decide (((tokensOf t).drop 1).length ≠ 3)

theorem asciiStep_badline (s : AsciiState) (bad : List ℕ)
    (h : badVertexLine bad = true) : asciiStep s bad = s := by
  simp only [badVertexLine, Bool.and_eq_true, decide_eq_true_iff] at h
  obtain ⟨hv, hlen⟩ := h
  have hlen' : ((((tokensOf ((trimCodes bad).map toLowerCode)).drop 1)).map jsNumber).length ≠ 3 := by
    rw [List.length_map]
    exact hlen
  simp only [asciiStep, hv, if_true]
  rcases hm : (((tokensOf ((trimCodes bad).map toLowerCode)).drop 1)).map jsNumber with
    _ | ⟨a, _ | ⟨b, _ | ⟨c, _ | ⟨d, rest⟩⟩⟩⟩
  · rfl
  · rfl
  · rfl
  · exact absurd (by rw [hm]; rfl) hlen'
  · rfl

/-- C7 (amended).  A vertex line carrying other than three numbers is
silently skipped: deleting it from the input leaves the decoded mesh
unchanged, and in particular the decoder returns a mesh instead of failing
with `InvalidFormat`. -/
theorem ascii_badline_skipped (l1 l2 : List (List ℕ)) (bad : List ℕ)
    (h : badVertexLine bad = true) :
    parseASCIILines (l1 ++ bad :: l2) = parseASCIILines (l1 ++ l2) := by
  simp only [parseASCIILines, List.foldl_append, List.foldl_cons]
  rw [asciiStep_badline _ bad h]

/-- Witness for C7 (amended): dropping the two-number line "vertex 1 2"
does not change the parse. -/
theorem ascii_badline_skipped_wit :
    badVertexLine (codes "vertex 1 2") = true ∧
    parseASCIILines [codes "solid a", codes "vertex 1 2", codes "endsolid"] =
      parseASCIILines [codes "solid a", codes "endsolid"] :=
  ⟨by with_unfolding_all decide,
   ascii_badline_skipped [codes "solid a"] [codes "endsolid"] (codes "vertex 1 2")
     (by with_unfolding_all decide)⟩

/-- Counterexample for C7 as stated: an 89-byte ASCII STL containing the
malformed line "vertex 1 2" (two numbers).  The decoder does *not* fail with
`InvalidFormat`: it skips the line and returns the mesh of the remaining
well-formed facet (three vertices, one triangle). -/
theorem ascii_badline_cex :
    parseSTLFile (codes "solid example\nvertex 1 2\nvertex 0 0 0\nvertex 1 0 0\nvertex 0 1 0\nendfacet\nendsolid example") =
      .ok (parseASCIISTL (codes "solid example\nvertex 1 2\nvertex 0 0 0\nvertex 1 0 0\nvertex 0 1 0\nendfacet\nendsolid example")) ∧
    parseSTLFile (codes "solid example\nvertex 1 2\nvertex 0 0 0\nvertex 1 0 0\nvertex 0 1 0\nendfacet\nendsolid example") ≠
      .error .invalidFormat ∧
    (parseASCIISTL (codes "solid example\nvertex 1 2\nvertex 0 0 0\nvertex 1 0 0\nvertex 0 1 0\nendfacet\nendsolid example")).triangles =
      [0, 1, 2] ∧
    (parseASCIISTL (codes "solid example\nvertex 1 2\nvertex 0 0 0\nvertex 1 0 0\nvertex 0 1 0\nendfacet\nendsolid example")).vertices.length =
      3 := by
  with_unfolding_all decide

/-! ### C6 — encode/decode round trip -/

/-- The vertex payload written by `writeSTLFile` (manifold-splitter.ts:170-226):
for each triangle index, the referenced vertex triple, in triangle order.
The 80-byte header, the recomputed per-triangle normals, and the two
attribute bytes are metadata that the decoder skips; float32 transport of
the mesh's (already float32) coordinates is exact, so re-decoding the
written bytes processes exactly this stream.  (Out-of-range indices would
read `undefined` in JS; they are defaulted here and never arise for decoded
meshes.) -/
def encodeStream (m : STLMesh) : List (ℚ × ℚ × ℚ) :=
  m.triangles.map (fun i => m.vertices.getD i (0, 0, 0))

/-- Invariant of the dedup state: the key list is the image of the vertex
table under `keyV`, and the keys are pairwise distinct. -/
def DInv (st : DState) : Prop :=
  st.keys = st.verts.map keyV ∧ st.keys.Nodup

theorem lookupIdx_none_iff (k : ℤ × ℤ × ℤ) (ks : List (ℤ × ℤ × ℤ)) :
    lookupIdx k ks = none ↔ k ∉ ks := by
  induction ks with
  | nil => simp [lookupIdx]
  | cons k2 ks ih =>
    by_cases h : k2 = k
    · simp [lookupIdx, h]
    · simp only [lookupIdx, if_neg h, Option.map_eq_none', ih, List.mem_cons]
      constructor
      · intro hk hor
        rcases hor with hor | hor
        · exact h hor.symm
        · exact hk hor
      · intro hk hmem
        exact hk (Or.inr hmem)

theorem lookupIdx_some_lt (k : ℤ × ℤ × ℤ) (ks : List (ℤ × ℤ × ℤ)) (i : ℕ)
    (h : lookupIdx k ks = some i) : i < ks.length := by
  induction ks generalizing i with
  | nil => simp [lookupIdx] at h
  | cons k2 ks ih =>
    by_cases hk : k2 = k
    · simp only [lookupIdx, if_pos hk, Option.some.injEq] at h
      simp only [List.length_cons]
      omega
    · simp only [lookupIdx, if_neg hk, Option.map_eq_some'] at h
      obtain ⟨j, hj, rfl⟩ := h
      have := ih j hj
      simp only [List.length_cons]
      omega

theorem lookupIdx_get (ks : List (ℤ × ℤ × ℤ)) (hnd : ks.Nodup) (i : ℕ)
    (hi : i < ks.length) : lookupIdx (ks.get ⟨i, hi⟩) ks = some i := by
  induction ks generalizing i with
  | nil => simp at hi
  | cons k2 tl ih =>
    cases i with
    | zero => simp [lookupIdx]
    | succ j =>
      have hj : j < tl.length := by simpa using hi
      have hget : (k2 :: tl).get ⟨j + 1, hi⟩ = tl.get ⟨j, hj⟩ := rfl
      have hne : k2 ≠ tl.get ⟨j, hj⟩ := by
        intro he
        exact (List.nodup_cons.mp hnd).1 (he ▸ List.get_mem tl j hj)
      rw [hget, lookupIdx, if_neg hne, ih (List.nodup_cons.mp hnd).2 j hj]
      rfl

theorem pushVert_known (st : DState) (hInv : DInv st) (i : ℕ)
    (hi : i < st.verts.length) :
    pushVert st (st.verts.get ⟨i, hi⟩) = (st, i) := by
  obtain ⟨V, K⟩ := st
  obtain ⟨hk, hnd⟩ := hInv
  simp only at hk
  subst hk
  have hi' : i < (V.map keyV).length := by
    rw [List.length_map]
    exact hi
  have hkey : keyV (V.get ⟨i, hi⟩) = (V.map keyV).get ⟨i, hi'⟩ := by
    simp [List.get_eq_getElem, List.getElem_map]
  rw [pushVert]
  simp only [hkey, lookupIdx_get (V.map keyV) hnd i hi']

theorem decodeStream_extend (s : List (ℚ × ℚ × ℚ)) (st : DState) :
    ∃ t, (decodeStream st s).1.verts = st.verts ++ t := by
  induction s generalizing st with
  | nil => exact ⟨[], by simp [decodeStream]⟩
  | cons v vs ih =>
    have hstep : ∃ t0, (pushVert st v).1.verts = st.verts ++ t0 := by
      rcases hc : lookupIdx (keyV v) st.keys with _ | i
      · rw [pushVert, hc]
        exact ⟨[v], rfl⟩
      · rw [pushVert, hc]
        exact ⟨[], by simp⟩
    obtain ⟨t0, ht0⟩ := hstep
    obtain ⟨t1, ht1⟩ := ih (pushVert st v).1
    refine ⟨t0 ++ t1, ?_⟩
    have hfst : (decodeStream st (v :: vs)).1 = (decodeStream (pushVert st v).1 vs).1 := rfl
    rw [hfst, ht1, ht0, List.append_assoc]

theorem pushVert_inv (st : DState) (v : ℚ × ℚ × ℚ) (h : DInv st) :
    DInv (pushVert st v).1 := by
  rcases hc : lookupIdx (keyV v) st.keys with _ | i
  · have hnotin : keyV v ∉ st.keys := (lookupIdx_none_iff _ _).mp hc
    rw [pushVert, hc]
    refine ⟨?_, ?_⟩
    · simp [h.1, List.map_append]
    · exact h.2.append (List.nodup_singleton _) (List.disjoint_singleton.mpr hnotin)
  · rw [pushVert, hc]
    exact h

theorem decodeStream_inv (s : List (ℚ × ℚ × ℚ)) (st : DState) (h : DInv st) :
    DInv (decodeStream st s).1 := by
  induction s generalizing st with
  | nil => exact h
  | cons v vs ih => exact ih (pushVert st v).1 (pushVert_inv st v h)

/-- Replay lemma: re-decoding the canonical stream (each emitted index
mapped through any extension `V` of the final vertex table) reproduces the
original decode — state and index stream alike. -/
theorem decodeStream_replay (s : List (ℚ × ℚ × ℚ)) (st : DState)
    (V : List (ℚ × ℚ × ℚ)) (hInv : DInv st)
    (hV : ∃ t, (decodeStream st s).1.verts ++ t = V) :
    decodeStream st ((decodeStream st s).2.map (fun i => V.getD i (0, 0, 0))) =
      decodeStream st s := by
  induction s generalizing st with
  | nil => simp [decodeStream]
  | cons v vs ih =>
    have hfst : (decodeStream st (v :: vs)).1 = (decodeStream (pushVert st v).1 vs).1 := rfl
    have hsnd : (decodeStream st (v :: vs)).2 =
        (pushVert st v).2 :: (decodeStream (pushVert st v).1 vs).2 := rfl
    have hkey : pushVert st (V.getD (pushVert st v).2 (0, 0, 0)) = pushVert st v := by
      rcases hc : lookupIdx (keyV v) st.keys with _ | i
      · have hp : pushVert st v =
            (⟨st.verts ++ [v], st.keys ++ [keyV v]⟩, st.verts.length) := by
          rw [pushVert, hc]
        obtain ⟨t1, ht1⟩ := decodeStream_extend vs (pushVert st v).1
        obtain ⟨t2, ht2⟩ := hV
        have hVv : V = st.verts ++ ([v] ++ (t1 ++ t2)) := by
          rw [← ht2, hfst, ht1, hp]
          simp [List.append_assoc]
        have hgetD : V.getD (pushVert st v).2 (0, 0, 0) = v := by
          rw [hp, hVv,
            List.getD_append_right _ _ _ _ (le_refl st.verts.length)]
          simp
        rw [hgetD]
      · have hp : pushVert st v = (st, i) := by rw [pushVert, hc]
        have hi : i < st.keys.length := lookupIdx_some_lt _ _ _ hc
        have hi' : i < st.verts.length := by
          rw [hInv.1, List.length_map] at hi
          exact hi
        obtain ⟨t1, ht1⟩ := decodeStream_extend vs (pushVert st v).1
        obtain ⟨t2, ht2⟩ := hV
        have hVv : V = st.verts ++ (t1 ++ t2) := by
          rw [← ht2, hfst, ht1, hp]
          simp [List.append_assoc]
        have hgetD : V.getD (pushVert st v).2 (0, 0, 0) = st.verts.get ⟨i, hi'⟩ := by
          rw [hp, hVv, List.getD_append _ _ _ _ hi', List.getD_eq_get _ _ hi']
        rw [hgetD, pushVert_known st hInv i hi', hp]
    have ih' := ih (pushVert st v).1 (pushVert_inv st v hInv)
      (by rw [hfst] at hV; exact hV)
    rw [hsnd, List.map_cons]
    simp only [decodeStream]
    rw [hkey, ih']

/-- C6 (amended).  For every triangle-soup vertex stream — in particular for
the stream of any binary STL input, `parseBinarySTL = parseSoup ∘ binaryStream`
— decoding, encoding, and re-decoding reproduces the decoded mesh's vertex
table and triangle list *exactly* (no re-ordering occurs: the canonical
stream presents the stored vertices in their original first-occurrence
order, and the deduplication keys of a decoded vertex table are pairwise
distinct).  The recomputed bounds and the fixed header/normals are outside
the equality.  ASCII inputs with malformed facets can leave vertices that no
triangle references, and for those the round trip fails (see the
counterexample). -/
theorem stl_roundtrip (stream : List (ℚ × ℚ × ℚ)) :
    (parseSoup (encodeStream (parseSoup stream))).vertices =
      (parseSoup stream).vertices ∧
    (parseSoup (encodeStream (parseSoup stream))).triangles =
      (parseSoup stream).triangles := by
  have h0 : DInv ⟨[], []⟩ := ⟨rfl, List.nodup_nil⟩
  have h := decodeStream_replay stream ⟨[], []⟩
    ((decodeStream ⟨[], []⟩ stream).1.verts) h0 ⟨[], by simp⟩
  exact ⟨congrArg (fun p => p.1.verts) h, congrArg (fun p => p.2) h⟩

/-- Counterexample for C6 as stated: an ASCII STL whose second facet closes
with only one vertex line.  That vertex enters the vertex table (the source
deduplicates on sight) but no triangle references it; the encoder writes
only referenced vertices, so re-decoding yields 3 vertices where the
original decode had 4 — no re-indexing bijection exists. -/
theorem stl_roundtrip_cex :
    (parseASCIISTL (codes "vertex 0 0 0\nvertex 1 0 0\nvertex 0 1 0\nendfacet\nvertex 5 5 5\nendfacet")).vertices.length = 4 ∧
    (parseSoup (encodeStream (parseASCIISTL (codes "vertex 0 0 0\nvertex 1 0 0\nvertex 0 1 0\nendfacet\nvertex 5 5 5\nendfacet")))).vertices.length = 3 ∧
    (parseASCIISTL (codes "vertex 0 0 0\nvertex 1 0 0\nvertex 0 1 0\nendfacet\nvertex 5 5 5\nendfacet")).triangles = [0, 1, 2] := by
  with_unfolding_all decide
